import Mathlib

/-!
# Semantic Server web front end (`src/web.go`)

A shallow embedding of `web.go` and of the parts of Go's `net/http`, `path` and
`html/template` packages that `main` and `handler` call.

* `web.go` itself is embedded function by function: `containerHandler`, `handler`, `main`.
* The library calls are embedded after their documented behaviour:
  `http.ServeMux` (longest-pattern matching, redirect of a subtree root named without its
  trailing slash, redirect of a path that is not in canonical form), `http.StripPrefix`,
  `http.FileServer` over `http.Dir`, `path.Clean`, `path.Base`, `template.ParseFiles` and
  `(*Template).Execute`.
* What the library computes from data this development does not describe, and what differs
  between its releases, is taken as a field of `Env`: the grammar and the rendering of
  `html/template`, the HTML of a directory listing, the processing of precondition and
  `Range` headers, and the status code of the redirects `ServeMux` generates.
* `ServeMux` is described on the decoded path of the request.  For a request sent without
  percent-escapes that change its reading (`URL.RawPath` empty) every release routes this
  way; for a request with a `RawPath` the mux of Go 1.22 and later routes on the escaped
  path instead, and the statements about dispatch that depend on it are made for requests
  with an empty `RawPath`.

Strings are lists of characters; a character stands for a byte.  What a handler does with a
request is an `Outcome`: the status and body it writes, a redirect, or a panic.
-/

namespace SemanticServer

/-! ## Strings and the `path` package -/

/-- Go strings, as lists of characters. -/
abbrev Str := List Char

/-- The path element `.`. -/
def dot : Str := ['.']

/-- The path element `..`. -/
def dotdot : Str := ['.', '.']

/-- The elements of a path: `strings.Split(p, "/")`. -/
def splitSlash : Str → List Str
  | [] => [[]]
  | c :: cs =>
    if c = '/' then [] :: splitSlash cs
    else
      match splitSlash cs with
      | [] => [[c]]
      | s :: ss => (c :: s) :: ss

/-- The elements of a path joined by single slashes: `strings.Join(elems, "/")`. -/
def joinSlash : List Str → Str
  | [] => []
  | [s] => s
  | s :: t => s ++ '/' :: joinSlash t

/-- One element consumed by the scan of `path.Clean`.  `out` holds the elements written so
far, last one first.  An empty element (a repeated slash) and `.` are dropped; `..` removes
the element written last, is dropped at the root of a rooted path, and is kept at the
start of a relative one. -/
def cleanStep (rooted : Bool) (out : List Str) (seg : Str) : List Str :=
  if seg = [] ∨ seg = dot then out
  else if seg = dotdot then
    match out with
    | [] => if rooted then [] else [dotdot]
    | top :: below => if !rooted ∧ top = dotdot then dotdot :: out else below
  else seg :: out

/-- The elements `path.Clean` keeps, in order. -/
def cleanSegs (rooted : Bool) (segs : List Str) : List Str :=
  (segs.foldl (cleanStep rooted) []).reverse

/-- Go `path.Clean`: the shortest path equivalent to `p` by purely lexical processing. -/
def path.Clean (p : Str) : Str :=
  if p = [] then dot
  else if p.head? = some '/' then '/' :: joinSlash (cleanSegs true (splitSlash p))
  else
    match cleanSegs false (splitSlash p) with
    | [] => dot
    | out => joinSlash out

/-- Go `path.Base`: the last element of `p`, trailing slashes removed first. -/
def path.Base (p : Str) : Str :=
  if p = [] then dot
  else
    let b := ((p.reverse.dropWhile (· = '/')).takeWhile (· ≠ '/')).reverse
    if b = [] then ['/'] else b

/-- Go `filepath.Join` of two elements on a slash-separated file system: empty elements are
ignored and the result is cleaned. -/
def filepath.Join (a b : Str) : Str :=
  if a = [] then (if b = [] then [] else path.Clean b)
  else if b = [] then path.Clean a
  else path.Clean (a ++ '/' :: b)

/-- The canonical form `net/http` gives a request path (`cleanPath` in `server.go`): rooted,
cleaned by `path.Clean`, with the trailing slash that `path.Clean` removes put back. -/
def cleanPath (p : Str) : Str :=
  if p = [] then ['/']
  else
    let p1 := if p.head? = some '/' then p else '/' :: p
    let np := path.Clean p1
    if p1.getLast? = some '/' ∧ np ≠ ['/'] then np ++ ['/'] else np

/-! ## Requests, outcomes and the environment -/

/-- The request method. -/
inductive Method
  | GET | HEAD | POST | PUT | PATCH | DELETE | OPTIONS | TRACE | CONNECT
  deriving DecidableEq, Repr

/-- The fields of `url.URL` the server consults.  `Path` is the decoded path; `RawPath` is
the path as it was sent when that is not the default encoding of `Path` (for instance with
`%2e` for a dot), and empty otherwise.  For the request target `*` the parsed path is
`*`. -/
structure URL where
  Path : Str
  RawPath : Str := []
  RawQuery : Str
  deriving DecidableEq, Repr

/-- An incoming `http.Request`. -/
structure Request where
  Method : Method
  URL : URL
  Host : Str
  Header : List (Str × Str)
  Body : Str
  deriving DecidableEq, Repr

/-- What a handler does with a request: it writes a status and a body, it answers with a
redirect to `location` (a path; the query string carried along is not recorded), or it
panics before anything is written, in which case `net/http` recovers, logs and closes the
connection without a response. -/
inductive Outcome
  | response (status : Nat) (body : Str)
  | redirect (status : Nat) (location : Str)
  | panicked
  deriving DecidableEq, Repr

/-- The status code of the response, when there is one. -/
def Outcome.status : Outcome → Option Nat
  | .response s _ => some s
  | .redirect s _ => some s
  | .panicked => none

/-- The body the handler wrote, when it wrote one. -/
def Outcome.body : Outcome → Option Str
  | .response _ b => some b
  | _ => none

/-- What opening an existing name yields: a regular file with its content, a directory, a
permission error (`denied`) or another error (`faulty`). -/
inductive Node
  | file (content : Str)
  | dir
  | denied
  | faulty
  deriving DecidableEq, Repr

/-- The world a request is served in.  `fs` is the file system seen from the working
directory: what the operating system opens for a slash-separated relative name, symbolic
links followed, `none` when the name does not exist.
`parses` tells whether `html/template` accepts a text, `render` is what `Execute` writes
for the parsed text with a nil data value, `dirList` is the HTML listing of the directory
with the given name, `conditional` is `serveContent` on a request that carries a
precondition or `Range` header, and `redirectCode` is the status code of the redirects
`ServeMux` generates, which depends on the release of `net/http` (301 in earlier releases,
307 in recent ones). -/
structure Env where
  fs : Str → Option Node
  parses : Str → Bool
  render : Str → Str
  dirList : Str → Str
  conditional : Request → Str → Outcome
  redirectCode : Nat

/-! ## `html/template` -/

/-- A parsed template: its name and the text it was parsed from. -/
structure Template where
  name : Str
  text : Str
  deriving DecidableEq, Repr

/-- Why `template.ParseFiles` failed. -/
inductive TemplateError
  | read
  | parse
  deriving DecidableEq, Repr

/-- Go `template.ParseFiles(filename)`: reads the file and parses it.  On a read error or a
parse error the returned template is nil. -/
def template.ParseFiles (env : Env) (filename : Str) : Option Template × Option TemplateError :=
  match env.fs filename with
  | some (Node.file content) =>
    if env.parses content then (some ⟨filename, content⟩, none)
    else (none, some TemplateError.parse)
  | _ => (none, some TemplateError.read)

/-- Go `t.Execute(w, nil)`.  On a nil `t` the method dereferences the receiver and panics;
otherwise the first write sends status 200 and the rendered text is the body. -/
def Template.Execute (env : Env) : Option Template → Outcome
  | none => Outcome.panicked
  | some t => Outcome.response 200 (env.render t.text)

/-! ## The handlers of `web.go` -/

/-- The template file `handler` loads. -/
def indexHtml : Str := "index.html".toList

/-- Source `containerHandler`: `fmt.Fprintf(w, "Container Handler %s", r.URL.Path)`. -/
def containerHandler (r : Request) : Outcome :=
  Outcome.response 200 ("Container Handler ".toList ++ r.URL.Path)

/-- Source `handler`: `t, _ := template.ParseFiles("index.html"); t.Execute(w, nil)`. -/
def handler (env : Env) (_r : Request) : Outcome :=
  let (t, _) := template.ParseFiles env indexHtml
  Template.Execute env t

/-! ## `net/http`: handlers -/

/-- The package-level functions of `web.go` that have the signature of a handler. -/
inductive Func
  | handler
  | containerHandler
  deriving DecidableEq, Repr

/-- The `http.Handler` values the program builds and the ones `ServeMux` generates.
`RedirectHandler url` is the redirect handler of the mux; its status code is that of the
release, `Env.redirectCode`. -/
inductive Handler
  | HandlerFunc (f : Func)
  | StripPrefix (pfx : Str) (h : Handler)
  | FileServer (root : Str)
  | RedirectHandler (url : Str)
  | NotFoundHandler
  deriving DecidableEq, Repr

/-- What each package-level function does when it is called as a handler. -/
abbrev Funcs := Func → Env → Request → Outcome

/-- The functions as `web.go` declares them. -/
def webFuncs : Funcs
  | Func.handler => handler
  | Func.containerHandler => fun _ r => containerHandler r

/-- Go `http.NotFound`: status 404 and the line `404 page not found`. -/
def NotFound : Outcome := Outcome.response 404 "404 page not found\n".toList

/-- Go `toHTTPError` for a permission error: status 403. -/
def Forbidden : Outcome := Outcome.response 403 "403 Forbidden\n".toList

/-- Go `toHTTPError` for any other error, and the reply to a path with a trailing slash
that names a file at the root: status 500. -/
def InternalServerError (msg : Str) : Outcome := Outcome.response 500 (msg ++ ['\n'])

/-- Go `localRedirect` of `fs.go`: status 301 with `Location: newPath`. -/
def localRedirect (newPath : Str) : Outcome := Outcome.redirect 301 newPath

/-- The suffix for which the file server redirects instead of serving. -/
def indexPage : Str := "/index.html".toList

/-- The request headers `serveContent` evaluates before it sends the whole content. -/
def conditionalHeaders : List Str :=
  ["If-Match".toList, "If-Unmodified-Since".toList, "If-None-Match".toList,
   "If-Modified-Since".toList, "If-Range".toList, "Range".toList]

/-- Whether the request carries a precondition or `Range` header. -/
def hasConditional (r : Request) : Bool :=
  r.Header.any (fun kv => conditionalHeaders.contains kv.1)

/-- Go `serveContent` of `fs.go`: without precondition and `Range` headers the reply is
status 200 and, unless the method is HEAD, the whole content. -/
def serveContent (env : Env) (r : Request) (content : Str) : Outcome :=
  if hasConditional r then env.conditional r content
  else if r.Method = Method.HEAD then Outcome.response 200 []
  else Outcome.response 200 content

/-- The reply for a directory without a usable `index.html`: status 200 and the listing of
the directory named `full`, unless the request carries a precondition header. -/
def serveDir (env : Env) (r : Request) (full : Str) : Outcome :=
  if hasConditional r then env.conditional r (env.dirList full)
  else Outcome.response 200 (env.dirList full)

/-- The name `http.Dir(dir).Open(name)` passes to the operating system:
`filepath.Join(dir, path.Clean("/" + name))`, an empty `dir` standing for `.`. -/
def Dir.fullName (dir name : Str) : Str :=
  filepath.Join (if dir = [] then dot else dir) (path.Clean ('/' :: name))

/-- Go `http.Dir(dir).Open(name)`: what the operating system opens for the full name,
`none` when it does not exist.  The full name is formed lexically; a symbolic link on the
way is followed by the operating system, inside `Env.fs`. -/
def Dir.Open (env : Env) (dir name : Str) : Option Node :=
  env.fs (Dir.fullName dir name)

/-- Go `serveFile(w, r, fs, name, true)` of `fs.go`.  A path ending in `/index.html` is
redirected to its directory; a name that does not open is answered 404, 403 or 500 by the
kind of the error; a directory is served under a path with a trailing slash, by its
`index.html` when that opens and by a listing otherwise; a file is served under a path
without trailing slash. -/
def serveFile (env : Env) (r : Request) (root name : Str) : Outcome :=
  if indexPage.isSuffixOf r.URL.Path then localRedirect "./".toList
  else
    match Dir.Open env root name with
    | none => NotFound
    | some Node.denied => Forbidden
    | some Node.faulty => InternalServerError "500 Internal Server Error".toList
    | some Node.dir =>
      if r.URL.Path.getLast? ≠ some '/' then localRedirect (path.Base r.URL.Path ++ ['/'])
      else
        let index := (if name.getLast? = some '/' then name.dropLast else name) ++ indexPage
        match Dir.Open env root index with
        | some (Node.file content) => serveContent env r content
        | some Node.dir => serveDir env r (Dir.fullName root index)
        | _ => serveDir env r (Dir.fullName root name)
    | some (Node.file content) =>
      if r.URL.Path.getLast? = some '/' then
        if path.Base r.URL.Path = ['/'] ∨ path.Base r.URL.Path = dot then
          InternalServerError "http: attempting to traverse a non-directory".toList
        else localRedirect ("../".toList ++ path.Base r.URL.Path)
      else serveContent env r content

/-- The handler `http.FileServer(root)` returns (`fileHandler.ServeHTTP`): the request path
is rooted and the file named by its cleaned form is served. -/
def fileHandler.ServeHTTP (env : Env) (root : Str) (r : Request) : Outcome :=
  let upath := if r.URL.Path.head? = some '/' then r.URL.Path else '/' :: r.URL.Path
  serveFile env { r with URL := { r.URL with Path := upath } } root (path.Clean upath)

/-- Go `strings.TrimPrefix`. -/
def trimPrefix (pfx p : Str) : Str :=
  if pfx.isPrefixOf p then p.drop pfx.length else p

/-- Calling a handler.  `StripPrefix` removes `pfx` from the path of the request, and from
its `RawPath`, and calls `h`; it answers 404 when the path does not begin with `pfx`, or
when a `RawPath` is set and does not begin with it; with an empty `pfx` it is `h`. -/
def Handler.ServeHTTP (funcs : Funcs) (env : Env) : Handler → Request → Outcome
  | Handler.HandlerFunc f, r => funcs f env r
  | Handler.StripPrefix pfx h, r =>
    if pfx = [] then h.ServeHTTP funcs env r
    else if pfx.isPrefixOf r.URL.Path ∧ (r.URL.RawPath = [] ∨ pfx.isPrefixOf r.URL.RawPath) then
      h.ServeHTTP funcs env
        { r with URL := { r.URL with Path := trimPrefix pfx r.URL.Path,
                                     RawPath := trimPrefix pfx r.URL.RawPath } }
    else NotFound
  | Handler.FileServer root, r => fileHandler.ServeHTTP env root r
  | Handler.RedirectHandler url, _ => Outcome.redirect env.redirectCode url
  | Handler.NotFoundHandler, _ => NotFound

/-! ## `net/http`: the request multiplexer -/

/-- A registration: a pattern and its handler. -/
structure muxEntry where
  pattern : Str
  h : Handler
  deriving DecidableEq, Repr

/-- A `ServeMux`: its registrations. -/
abbrev ServeMux := List muxEntry

/-- The multiplexer `http.Handle` and `http.HandleFunc` register on. -/
def DefaultServeMux : ServeMux := []

/-- Go `mux.Handle(pattern, h)`, for a pattern that is not empty and not yet registered
(otherwise the original panics). -/
def ServeMux.Handle (mux : ServeMux) (pattern : Str) (h : Handler) : ServeMux :=
  mux ++ [⟨pattern, h⟩]

/-- Go `mux.HandleFunc(pattern, f)`. -/
def ServeMux.HandleFunc (mux : ServeMux) (pattern : Str) (f : Func) : ServeMux :=
  mux.Handle pattern (Handler.HandlerFunc f)

/-- Whether a pattern matches a path: a pattern ending in a slash names a subtree and
matches every path it is a leading part of, another pattern matches only itself. -/
def pathMatch (pattern p : Str) : Bool :=
  if pattern = [] then false
  else if pattern.getLast? ≠ some '/' then pattern = p
  else pattern.isPrefixOf p

/-- The better of the match found so far and the entry `e`: the longer pattern wins. -/
def better (p : Str) (best : Option muxEntry) (e : muxEntry) : Option muxEntry :=
  if pathMatch e.pattern p then
    match best with
    | none => some e
    | some b => if b.pattern.length < e.pattern.length then some e else some b
  else best

/-- Go `mux.match(path)`: the registration with the longest pattern that matches. -/
def ServeMux.find (mux : ServeMux) (p : Str) : Option muxEntry :=
  mux.foldl (better p) none

/-- Go `mux.handler(host, path)` for a mux without host-specific patterns: the matching
handler, or `NotFoundHandler()`. -/
def ServeMux.handler (mux : ServeMux) (p : Str) : Handler :=
  match mux.find p with
  | some e => e.h
  | none => Handler.NotFoundHandler

/-- Whether some registration has exactly this pattern. -/
def ServeMux.registered (mux : ServeMux) (p : Str) : Bool :=
  mux.any (fun e => e.pattern = p)

/-- Go `mux.shouldRedirectRLocked`: the path is not registered, and the path with a slash
added is.  The host-qualified lookups of the original coincide with these, since a pattern
of `main` begins with a slash and a host holds none. -/
def ServeMux.shouldRedirect (mux : ServeMux) (p : Str) : Bool :=
  if mux.registered p then false
  else if p = [] then false
  else if mux.registered (p ++ ['/']) then p.getLast? ≠ some '/'
  else false

/-- Go `mux.Handler(r)`: the handler to use for the request.  The path of a CONNECT request
is taken as it is; any other path is first brought into canonical form.  A path that names
a registered subtree without its trailing slash, and a path that is not in canonical form,
get a handler that redirects, with the status code of the release.  The routing is that
of every release for a request with an empty `RawPath`, and that of the mux of Go 1.21 and
earlier for a request with a `RawPath`. -/
def ServeMux.Handler (mux : ServeMux) (r : Request) : Handler :=
  if r.Method = Method.CONNECT then
    if mux.shouldRedirect r.URL.Path then
      Handler.RedirectHandler (r.URL.Path ++ ['/'])
    else mux.handler r.URL.Path
  else
    let p := cleanPath r.URL.Path
    if mux.shouldRedirect p then Handler.RedirectHandler (p ++ ['/'])
    else if p ≠ r.URL.Path then Handler.RedirectHandler p
    else mux.handler r.URL.Path

/-- Go `mux.ServeHTTP`: the request target `*` is answered 400, any other request is
passed to the handler `mux.Handler` selects. -/
def ServeMux.ServeHTTP (funcs : Funcs) (env : Env) (mux : ServeMux) (r : Request) : Outcome :=
  if r.URL.Path = ['*'] then Outcome.response 400 []
  else (mux.Handler r).ServeHTTP funcs env r

/-- Go `serverHandler.ServeHTTP`: `OPTIONS *` is answered by the server itself with an
empty 200, everything else goes to the mux. -/
def serverHandler (funcs : Funcs) (env : Env) (mux : ServeMux) (r : Request) : Outcome :=
  if r.URL.Path = ['*'] ∧ r.Method = Method.OPTIONS then Outcome.response 200 []
  else mux.ServeHTTP funcs env r

/-! ## `main` -/

/-- The pattern of the root handler. -/
def rootPattern : Str := "/".toList

/-- The pattern and the stripped prefix of the static file handler. -/
def imagesPattern : Str := "/images/".toList

/-- The directory the static file handler serves: `http.Dir("images")`. -/
def imagesDir : Str := "images".toList

/-- The static file handler of line 28:
`http.StripPrefix("/images/", http.FileServer(http.Dir("images")))`. -/
def staticHandler : Handler :=
  Handler.StripPrefix imagesPattern (Handler.FileServer imagesDir)

/-- The state of `DefaultServeMux` after lines 27 and 28 of `main`. -/
def mainMux : ServeMux :=
  (DefaultServeMux.HandleFunc rootPattern Func.handler).Handle imagesPattern staticHandler

/-- What a run of the process shows: its standard output and standard error, the
registrations `DefaultServeMux` holds when `ListenAndServe` is called, and the exit status
when `main` returns (`none` while the process keeps serving). -/
structure Run where
  stdout : Str
  stderr : Str
  mux : ServeMux
  exit : Option Nat
  deriving DecidableEq, Repr

/-- Go `http.ListenAndServe(addr, nil)`.  `listen addr` is the error of binding the
address, `none` when the bind succeeds.  A bind error is returned at once; after a
successful bind the call serves and does not return (`none`). -/
def ListenAndServe (listen : Str → Option Str) (addr : Str) : Option Str :=
  listen addr

/-- Source `main`: prints the banner, registers the two handlers, calls
`http.ListenAndServe(":7899", nil)` and drops its result; when the call returns, `main`
returns and the process exits with status 0. -/
def main (listen : Str → Option Str) : Run :=
  let stdout := "Running on port 7899".toList
  let mux := mainMux
  match ListenAndServe listen ":7899".toList with
  | some _ => { stdout := stdout, stderr := [], mux := mux, exit := some 0 }
  | none => { stdout := stdout, stderr := [], mux := mux, exit := none }

/-- The server `main` starts, with the package-level functions given by `funcs`:
`serverHandler` over `DefaultServeMux` as `main` filled it. -/
def serveWith (funcs : Funcs) (env : Env) (r : Request) : Outcome :=
  serverHandler funcs env mainMux r

/-- The server of `web.go`. -/
def serve (env : Env) (r : Request) : Outcome :=
  serveWith webFuncs env r

/-- The handler the server of `web.go` selects for a request that is not `*`. -/
def dispatch (r : Request) : Handler :=
  mainMux.Handler r

/-! ## Vocabulary of the statements -/

/-- The server with `containerHandler` replaced by an arbitrary function `ch`. -/
def withContainer (ch : Env → Request → Outcome) : Funcs
  | Func.handler => handler
  | Func.containerHandler => ch

/-- An ordinary path element: not empty, not `.`, not `..`, and without a slash. -/
def Normal (s : Str) : Prop :=
  s ≠ [] ∧ s ≠ dot ∧ s ≠ dotdot ∧ '/' ∉ s

instance (s : Str) : Decidable (Normal s) := by
  unfold Normal; exact inferInstance

/-- A file name that lies inside the directory `root`, lexically: `root` itself or `root`
followed by ordinary elements. -/
def Inside (root p : Str) : Prop :=
  ∃ segs : List Str, (∀ s ∈ segs, Normal s) ∧ p = joinSlash (root :: segs)

/-- Two environments in which every name that lies lexically inside `root` opens the same,
and which differ in nothing but the rest of the file system. -/
def AgreeInside (root : Str) (e1 e2 : Env) : Prop :=
  (∀ p, Inside root p → e1.fs p = e2.fs p) ∧ e1.parses = e2.parses ∧ e1.render = e2.render ∧
    e1.dirList = e2.dirList ∧ e1.conditional = e2.conditional ∧
    e1.redirectCode = e2.redirectCode

/-- A request with the given method and path and nothing else. -/
def mkRequest (m : Method) (p : Str) : Request :=
  { Method := m, URL := { Path := p, RawQuery := [] }, Host := [], Header := [], Body := [] }

/-- A working directory for the examples: `index.html`, `images/logo.png` with the ten
bytes `PNGDATA123`, `images/index.html`, and a file `etc/passwd` outside `images`. -/
def exampleFs (p : Str) : Option Node :=
  if p = "index.html".toList then some (Node.file "<h1>Semantic Server</h1>".toList)
  else if p = "images".toList then some Node.dir
  else if p = "images/logo.png".toList then some (Node.file "PNGDATA123".toList)
  else if p = "images/index.html".toList then some (Node.file "<p>gallery</p>".toList)
  else if p = "etc".toList then some Node.dir
  else if p = "etc/passwd".toList then some (Node.file "root:x:0:0".toList)
  else none

/-- The example working directory with the file `etc/passwd`, which lies outside `images`,
replaced by another content. -/
def exampleFsChanged (p : Str) : Option Node :=
  if p = "etc/passwd".toList then some (Node.file "changed".toList) else exampleFs p

/-- The example working directory with a symbolic link `images/link` to `etc/passwd`:
opening `images/link` yields what opening `etc/passwd` yields. -/
def exampleFsLinked (p : Str) : Option Node :=
  if p = "images/link".toList then exampleFs "etc/passwd".toList else exampleFs p

/-- Whether a template text holds an action: the delimiter `{{` occurs in it. -/
def hasAction : Str → Bool
  | '{' :: '{' :: _ => true
  | _ :: rest => hasAction rest
  | [] => false

/-- What the contextual escaper of `html/template` does to HTML comments in template text:
from `<!--` up to and including the next `-->` nothing reaches the output.  The flag tells
whether the scan is inside a comment. -/
def elideComments : Bool → Str → Str
  | false, '<' :: '!' :: '-' :: '-' :: rest => elideComments true rest
  | false, c :: rest => c :: elideComments false rest
  | true, '-' :: '-' :: '>' :: rest => elideComments false rest
  | true, _ :: rest => elideComments true rest
  | _, [] => []

/-- An environment over the file system `fs` whose template engine accepts every text
without actions and writes it with its HTML comments elided, as `html/template` does, and
whose mux redirects with status 307. -/
def exampleEnvOn (fs : Str → Option Node) : Env :=
  { fs := fs
    parses := fun text => !hasAction text
    render := elideComments false
    dirList := fun name => "<pre>".toList ++ name ++ "</pre>".toList
    conditional := fun _ _ => Outcome.response 304 []
    redirectCode := 307 }

/-- The example environment. -/
def exampleEnv : Env := exampleEnvOn exampleFs

/-- The example environment under a release of `net/http` whose mux redirects with status
301. -/
def exampleEnvLegacy : Env := { exampleEnv with redirectCode := 301 }

/-! # Theorems -/

/-! ## Path elements -/

theorem splitSlash_ne_nil (p : Str) : splitSlash p ≠ [] := by
  induction p with
  | nil => simp [splitSlash]
  | cons c cs ih =>
    unfold splitSlash
    split
    · simp
    · split <;> simp

theorem splitSlash_of_not_mem (s : Str) (h : '/' ∉ s) : splitSlash s = [s] := by
  induction s with
  | nil => simp [splitSlash]
  | cons c cs ih =>
    have hc : c ≠ '/' := fun e => h (by simp [e])
    have hcs : '/' ∉ cs := fun m => h (by simp [m])
    simp [splitSlash, hc, ih hcs]

theorem splitSlash_append (s t : Str) (h : '/' ∉ s) :
    splitSlash (s ++ '/' :: t) = s :: splitSlash t := by
  induction s with
  | nil => simp [splitSlash]
  | cons c cs ih =>
    have hc : c ≠ '/' := fun e => h (by simp [e])
    have hcs : '/' ∉ cs := fun m => h (by simp [m])
    simp [splitSlash, hc, ih hcs]

theorem splitSlash_joinSlash (segs : List Str) (hne : segs ≠ [])
    (h : ∀ s ∈ segs, '/' ∉ s) : splitSlash (joinSlash segs) = segs := by
  induction segs with
  | nil => exact absurd rfl hne
  | cons s t ih =>
    cases t with
    | nil => simpa [joinSlash] using splitSlash_of_not_mem s (h s (by simp))
    | cons u v =>
      have hs : '/' ∉ s := h s (by simp)
      have ht : ∀ x ∈ u :: v, '/' ∉ x := fun x hx => h x (by simp [hx])
      simp only [joinSlash]
      rw [splitSlash_append s _ hs, ih (by simp) ht]

theorem not_mem_of_mem_splitSlash (p : Str) : ∀ s ∈ splitSlash p, '/' ∉ s := by
  induction p with
  | nil => simp [splitSlash]
  | cons c cs ih =>
    unfold splitSlash
    split
    · intro s hs
      rcases List.mem_cons.1 hs with rfl | hs
      · simp
      · exact ih s hs
    · rename_i hc
      split
      · intro s hs
        simp at hs
        subst hs
        simpa using fun e : '/' = c => hc e.symm
      · rename_i a b heq
        intro s hs
        rw [heq] at ih
        rcases List.mem_cons.1 hs with rfl | hs
        · have := ih a (by simp)
          intro hm
          rcases List.mem_cons.1 hm with e | hm
          · exact hc e.symm
          · exact this hm
        · exact ih s (by simp [hs])

theorem foldl_cleanStep_normal (rooted : Bool) (segs : List Str) (h : ∀ s ∈ segs, Normal s)
    (acc : List Str) : segs.foldl (cleanStep rooted) acc = segs.reverse ++ acc := by
  induction segs generalizing acc with
  | nil => simp
  | cons s t ih =>
    have hs : Normal s := h s (by simp)
    have ht : ∀ x ∈ t, Normal x := fun x hx => h x (by simp [hx])
    have hstep : cleanStep rooted acc s = s :: acc := by
      simp [cleanStep, hs.1, hs.2.1, hs.2.2.1]
    simp [List.foldl_cons, hstep, ih ht]

theorem cleanSegs_normal (rooted : Bool) (segs : List Str) (h : ∀ s ∈ segs, Normal s) :
    cleanSegs rooted segs = segs := by
  simp [cleanSegs, foldl_cleanStep_normal rooted segs h]

theorem cleanStep_rooted_keeps (out : List Str) (seg : Str) (hseg : '/' ∉ seg)
    (hout : ∀ s ∈ out, Normal s) : ∀ s ∈ cleanStep true out seg, Normal s := by
  unfold cleanStep
  split
  · exact hout
  · rename_i h1
    split
    · cases out with
      | nil => simp
      | cons a b =>
        simp
        intro s hs
        exact hout s (by simp [hs])
    · rename_i h2
      intro s hs
      rcases List.mem_cons.1 hs with rfl | hs
      · simp only [not_or] at h1
        exact ⟨h1.1, h1.2, h2, hseg⟩
      · exact hout s hs

theorem foldl_cleanStep_rooted_keeps (segs : List Str) (hsegs : ∀ s ∈ segs, '/' ∉ s)
    (out : List Str) (hout : ∀ s ∈ out, Normal s) :
    ∀ s ∈ segs.foldl (cleanStep true) out, Normal s := by
  induction segs generalizing out with
  | nil => simpa using hout
  | cons a t ih =>
    simp only [List.foldl_cons]
    exact ih (fun x hx => hsegs x (by simp [hx])) _
      (cleanStep_rooted_keeps out a (hsegs a (by simp)) hout)

theorem cleanSegs_rooted_all_normal (p : Str) :
    ∀ s ∈ cleanSegs true (splitSlash p), Normal s := by
  intro s hs
  simp only [cleanSegs, List.mem_reverse] at hs
  exact foldl_cleanStep_rooted_keeps _ (not_mem_of_mem_splitSlash p) [] (by simp) s hs

theorem foldl_cleanStep_skip (rooted : Bool) (segs acc : List Str) :
    ([] :: segs).foldl (cleanStep rooted) acc = segs.foldl (cleanStep rooted) acc := by
  simp [cleanStep]

theorem cleanSegs_rooted_join (segs : List Str) (h : ∀ s ∈ segs, Normal s) :
    cleanSegs true (splitSlash ('/' :: joinSlash segs)) = segs := by
  cases segs with
  | nil => simp [splitSlash, joinSlash, cleanSegs, cleanStep]
  | cons a t =>
    have hs : splitSlash (joinSlash (a :: t)) = a :: t :=
      splitSlash_joinSlash _ (by simp) (fun s hs => (h s hs).2.2.2)
    have : splitSlash ('/' :: joinSlash (a :: t)) = [] :: a :: t := by
      simp [splitSlash, hs]
    rw [this]
    unfold cleanSegs
    rw [foldl_cleanStep_skip, foldl_cleanStep_normal true _ h]
    simp

theorem Clean_rooted_join (segs : List Str) (h : ∀ s ∈ segs, Normal s) :
    path.Clean ('/' :: joinSlash segs) = '/' :: joinSlash segs := by
  simp [path.Clean, cleanSegs_rooted_join segs h]

theorem Join_normal (root : Str) (hroot : Normal root) (hrel : root.head? ≠ some '/')
    (segs : List Str) (h : ∀ s ∈ segs, Normal s) :
    filepath.Join root ('/' :: joinSlash segs) = joinSlash (root :: segs) := by
  have hsplit : cleanSegs false (splitSlash (root ++ '/' :: '/' :: joinSlash segs))
      = root :: segs := by
    rw [splitSlash_append root _ hroot.2.2.2]
    cases segs with
    | nil =>
      have hstep : cleanStep false [] root = [root] := by
        simp [cleanStep, hroot.1, hroot.2.1, hroot.2.2.1]
      simp [splitSlash, joinSlash, cleanSegs, hstep]
      simp [cleanStep]
    | cons a t =>
      have hs : splitSlash (joinSlash (a :: t)) = a :: t :=
        splitSlash_joinSlash _ (by simp) (fun s hs => (h s hs).2.2.2)
      have : splitSlash ('/' :: joinSlash (a :: t)) = [] :: a :: t := by
        simp [splitSlash, hs]
      rw [this]
      have hall : ∀ s ∈ root :: a :: t, Normal s := by
        intro s hs
        rcases List.mem_cons.1 hs with rfl | hs
        · exact hroot
        · exact h s hs
      unfold cleanSegs
      rw [List.foldl_cons, foldl_cleanStep_skip, ← List.foldl_cons,
        foldl_cleanStep_normal false _ hall]
      simp
  have hne : root ≠ [] := hroot.1
  have hhead : (root ++ '/' :: '/' :: joinSlash segs).head? ≠ some '/' := by
    cases root with
    | nil => exact absurd rfl hne
    | cons c cs => simpa using hrel
  simp only [filepath.Join, hne, if_false, path.Clean]
  simp only [List.append_eq_nil, hne, false_and, if_false, hhead, hsplit, reduceCtorEq]

theorem imagesDir_normal : Normal imagesDir := by decide

theorem imagesDir_head : imagesDir.head? ≠ some '/' := by decide

theorem fullName_images (name : Str) :
    Dir.fullName imagesDir name
      = joinSlash (imagesDir :: cleanSegs true (splitSlash ('/' :: name))) := by
  have hnorm := cleanSegs_rooted_all_normal ('/' :: name)
  have hclean : path.Clean ('/' :: name)
      = '/' :: joinSlash (cleanSegs true (splitSlash ('/' :: name))) := by
    simp [path.Clean]
  have hdir : imagesDir ≠ [] := imagesDir_normal.1
  unfold Dir.fullName
  rw [if_neg hdir, hclean]
  exact Join_normal imagesDir imagesDir_normal imagesDir_head _ hnorm

theorem fullName_images_inside (name : Str) : Inside imagesDir (Dir.fullName imagesDir name) :=
  ⟨_, cleanSegs_rooted_all_normal ('/' :: name), fullName_images name⟩

theorem fullName_images_normal (segs : List Str) (h : ∀ s ∈ segs, Normal s) :
    Dir.fullName imagesDir (path.Clean ('/' :: joinSlash segs)) = joinSlash (imagesDir :: segs) := by
  have hs : cleanSegs true (splitSlash ('/' :: '/' :: joinSlash segs)) = segs := by
    have : splitSlash ('/' :: '/' :: joinSlash segs) = [] :: splitSlash ('/' :: joinSlash segs) := by
      simp [splitSlash]
    rw [this]
    have h2 := cleanSegs_rooted_join segs h
    unfold cleanSegs at h2 ⊢
    rw [foldl_cleanStep_skip]
    exact h2
  rw [Clean_rooted_join segs h, fullName_images, hs]

/-! ## The multiplexer of `main` -/

theorem rootPattern_eq : rootPattern = ['/'] := rfl

theorem imagesPattern_eq : imagesPattern = ['/', 'i', 'm', 'a', 'g', 'e', 's', '/'] := rfl

theorem imagesDir_eq : imagesDir = ['i', 'm', 'a', 'g', 'e', 's'] := rfl

theorem mainMux_eq : mainMux =
    [⟨rootPattern, Handler.HandlerFunc Func.handler⟩, ⟨imagesPattern, staticHandler⟩] := rfl

theorem root_of_images (p : Str) (h : imagesPattern.isPrefixOf p = true) :
    rootPattern.isPrefixOf p = true := by
  rw [List.isPrefixOf_iff_prefix] at h ⊢
  exact List.IsPrefix.trans (by decide) h

theorem find_mainMux (p : Str) : mainMux.find p =
    if imagesPattern.isPrefixOf p then some ⟨imagesPattern, staticHandler⟩
    else if rootPattern.isPrefixOf p then some ⟨rootPattern, Handler.HandlerFunc Func.handler⟩
    else none := by
  have hr : pathMatch rootPattern p = rootPattern.isPrefixOf p := by
    simp [pathMatch, rootPattern_eq]
  have hi : pathMatch imagesPattern p = imagesPattern.isPrefixOf p := by
    simp [pathMatch, imagesPattern_eq]
  have hlen : rootPattern.length < imagesPattern.length := by decide
  simp only [mainMux_eq, ServeMux.find, List.foldl_cons, List.foldl_nil, better, hr, hi]
  by_cases h1 : imagesPattern.isPrefixOf p = true
  · have h2 := root_of_images p h1
    simp only [h1, h2, if_true, hlen]
  · by_cases h2 : rootPattern.isPrefixOf p = true
    · simp only [h1, h2, if_true, if_false]
      rfl
    · simp only [h1, h2, if_false]
      rfl

theorem handler_mainMux (p : Str) : mainMux.handler p =
    if imagesPattern.isPrefixOf p then staticHandler
    else if rootPattern.isPrefixOf p then Handler.HandlerFunc Func.handler
    else Handler.NotFoundHandler := by
  unfold ServeMux.handler
  rw [find_mainMux]
  by_cases h1 : imagesPattern.isPrefixOf p = true
  · simp [h1]
  · by_cases h2 : rootPattern.isPrefixOf p = true
    · simp [h1, h2]
    · simp [h1, h2]

theorem registered_mainMux (p : Str) :
    mainMux.registered p = (decide (p = rootPattern) || decide (p = imagesPattern)) := by
  simp [ServeMux.registered, mainMux_eq, eq_comm]

theorem shouldRedirect_mainMux (p : Str) :
    mainMux.shouldRedirect p = decide (p = "/images".toList) := by
  have e1 : "/images".toList = ['/', 'i', 'm', 'a', 'g', 'e', 's'] := rfl
  have e2 : imagesPattern = ['/', 'i', 'm', 'a', 'g', 'e', 's'] ++ ['/'] := rfl
  have e3 : rootPattern = [] ++ ['/'] := rfl
  unfold ServeMux.shouldRedirect
  rw [registered_mainMux, registered_mainMux, e1]
  by_cases hp : p = ['/', 'i', 'm', 'a', 'g', 'e', 's']
  · subst hp
    decide
  · have h3 : ¬ (p ++ ['/'] = imagesPattern) := by
      rw [e2]
      intro h
      exact hp (List.append_cancel_right h)
    by_cases hn : p = []
    · subst hn
      decide
    · have h4 : ¬ (p ++ ['/'] = rootPattern) := by
        rw [e3]
        intro h
        exact hn (List.append_cancel_right h)
      simp [hp, h3, h4, hn]

theorem head_cleanPath (p : Str) : (cleanPath p).head? = some '/' := by
  unfold cleanPath
  split
  · rfl
  · rename_i hne
    have hroot : (if p.head? = some '/' then p else '/' :: p).head? = some '/' := by
      split
      · assumption
      · rfl
    have hne1 : (if p.head? = some '/' then p else '/' :: p) ≠ [] := by
      split
      · exact hne
      · simp
    have hc : path.Clean (if p.head? = some '/' then p else '/' :: p)
        = '/' :: joinSlash (cleanSegs true (splitSlash (if p.head? = some '/' then p else '/' :: p))) := by
      simp only [path.Clean, hne1, if_false, hroot, if_true]
    simp only [hc]
    split <;> split <;> rfl

theorem rooted_of_canonical (p : Str) (h : cleanPath p = p) : rootPattern.isPrefixOf p = true := by
  have := head_cleanPath p
  rw [h] at this
  cases p with
  | nil => simp at this
  | cons c cs =>
    simp at this
    simp [rootPattern_eq, this]

/-- The handler selected for a request whose path is in canonical form, whatever its
method. -/
theorem dispatch_canonical (r : Request) (h : cleanPath r.URL.Path = r.URL.Path) :
    dispatch r =
      if r.URL.Path = "/images".toList then Handler.RedirectHandler imagesPattern
      else if imagesPattern.isPrefixOf r.URL.Path then staticHandler
      else Handler.HandlerFunc Func.handler := by
  have hroot := rooted_of_canonical _ h
  unfold dispatch ServeMux.Handler
  simp only [h, shouldRedirect_mainMux, handler_mainMux, hroot, decide_eq_true_eq, ne_eq,
    not_true_eq_false, if_false, if_true]
  by_cases hi : r.URL.Path = "/images".toList
  · simp only [hi, if_true]
    split <;> rfl
  · simp only [hi, if_false]
    split <;> rfl

/-- The handlers the mux of `main` can select. -/
theorem dispatch_range (r : Request) :
    dispatch r = Handler.HandlerFunc Func.handler ∨ dispatch r = staticHandler ∨
      dispatch r = Handler.NotFoundHandler ∨ ∃ u, dispatch r = Handler.RedirectHandler u := by
  unfold dispatch ServeMux.Handler
  simp only [handler_mainMux]
  repeat' split
  all_goals simp

/-! ## Paths made of ordinary elements -/

theorem joinSlash_cons_cons (s u : Str) (v : List Str) :
    joinSlash (s :: u :: v) = s ++ '/' :: joinSlash (u :: v) := rfl

theorem head_joinSlash (segs : List Str) (hne : segs ≠ []) (h : ∀ s ∈ segs, Normal s) :
    (joinSlash segs).head? ≠ some '/' := by
  cases segs with
  | nil => exact absurd rfl hne
  | cons s t =>
    have hs := h s (by simp)
    cases s with
    | nil => exact absurd rfl hs.1
    | cons c cs =>
      have hc : c ≠ '/' := fun e => hs.2.2.2 (by simp [e])
      cases t with
      | nil => simpa [joinSlash] using hc
      | cons u v => simpa [joinSlash] using hc

theorem getLast_of_not_mem (s : Str) (h : '/' ∉ s) : s.getLast? ≠ some '/' := by
  intro e
  exact h (List.mem_of_getLast?_eq_some e)

theorem getLast_joinSlash (segs : List Str) (hne : segs ≠ []) (h : ∀ s ∈ segs, Normal s) :
    (joinSlash segs).getLast? ≠ some '/' ∧ joinSlash segs ≠ [] := by
  induction segs with
  | nil => exact absurd rfl hne
  | cons s t ih =>
    have hs := h s (by simp)
    cases t with
    | nil =>
      simp only [joinSlash]
      exact ⟨getLast_of_not_mem s hs.2.2.2, hs.1⟩
    | cons u v =>
      have ht := ih (by simp) (fun x hx => h x (by simp [hx]))
      rw [joinSlash_cons_cons]
      constructor
      · rw [List.getLast?_append_of_ne_nil _ (by simp)]
        cases hj : joinSlash (u :: v) with
        | nil => exact absurd hj ht.2
        | cons a b =>
          rw [List.getLast?_cons_cons, ← hj]
          exact ht.1
      · simp

theorem getLast_rooted_join (segs : List Str) (hne : segs ≠ []) (h : ∀ s ∈ segs, Normal s) :
    ('/' :: joinSlash segs).getLast? ≠ some '/' := by
  have hj := getLast_joinSlash segs hne h
  cases hc : joinSlash segs with
  | nil => exact absurd hc hj.2
  | cons a b =>
    rw [List.getLast?_cons_cons, ← hc]
    exact hj.1

theorem cleanPath_rooted_join (segs : List Str) (hne : segs ≠ []) (h : ∀ s ∈ segs, Normal s) :
    cleanPath ('/' :: joinSlash segs) = '/' :: joinSlash segs := by
  have hl := getLast_rooted_join segs hne h
  simp only [cleanPath, List.head?_cons, if_true, Clean_rooted_join segs h, hl, false_and,
    if_false, reduceCtorEq]

theorem images_path_eq (segs : List Str) (hne : segs ≠ []) :
    imagesPattern ++ joinSlash segs = '/' :: joinSlash (imagesDir :: segs) := by
  cases segs with
  | nil => exact absurd rfl hne
  | cons s t => rfl

theorem images_all_normal (segs : List Str) (h : ∀ s ∈ segs, Normal s) :
    ∀ s ∈ imagesDir :: segs, Normal s := by
  intro s hs
  rcases List.mem_cons.1 hs with rfl | hs
  · exact imagesDir_normal
  · exact h s hs

theorem cleanPath_images (segs : List Str) (hne : segs ≠ []) (h : ∀ s ∈ segs, Normal s) :
    cleanPath (imagesPattern ++ joinSlash segs) = imagesPattern ++ joinSlash segs := by
  rw [images_path_eq segs hne]
  exact cleanPath_rooted_join _ (by simp) (images_all_normal segs h)

theorem images_path_ne (rest : Str) : imagesPattern ++ rest ≠ "/images".toList := by
  intro e
  have := congrArg List.length e
  simp [imagesPattern_eq] at this

theorem images_isPrefixOf (rest : Str) : imagesPattern.isPrefixOf (imagesPattern ++ rest) = true := by
  rw [List.isPrefixOf_iff_prefix]
  exact List.prefix_append _ _

/-! ## The server -/

theorem not_star_of_canonical (p : Str) (h : cleanPath p = p) : p ≠ ['*'] := by
  intro e
  have := head_cleanPath p
  rw [h, e] at this
  simp at this

theorem serveWith_canonical (funcs : Funcs) (env : Env) (r : Request)
    (h : cleanPath r.URL.Path = r.URL.Path) :
    serveWith funcs env r = (dispatch r).ServeHTTP funcs env r := by
  have hs := not_star_of_canonical _ h
  simp [serveWith, serverHandler, ServeMux.ServeHTTP, hs, dispatch]

theorem trimPrefix_images (rest : Str) : trimPrefix imagesPattern (imagesPattern ++ rest) = rest := by
  simp [trimPrefix, images_isPrefixOf]

theorem static_ServeHTTP (funcs : Funcs) (env : Env) (r : Request) (rest : Str)
    (hp : r.URL.Path = imagesPattern ++ rest) (hraw : r.URL.RawPath = []) :
    staticHandler.ServeHTTP funcs env r
      = fileHandler.ServeHTTP env imagesDir { r with URL := { r.URL with Path := rest } } := by
  have hne : imagesPattern ≠ [] := by decide
  have hpre := images_isPrefixOf rest
  have htrim : trimPrefix imagesPattern ([] : Str) = [] := by decide
  simp only [staticHandler, Handler.ServeHTTP, hne, if_false, hp, hpre, hraw, true_or, and_self,
    if_true, trimPrefix_images, htrim]

/-- What the server does with a request for `/images/` followed by one or more ordinary
elements: the static handler serves the file named by the rooted remainder. -/
theorem serveWith_images (funcs : Funcs) (env : Env) (r : Request) (segs : List Str)
    (hne : segs ≠ []) (h : ∀ s ∈ segs, Normal s)
    (hp : r.URL.Path = imagesPattern ++ joinSlash segs) (hraw : r.URL.RawPath = []) :
    dispatch r = staticHandler ∧
    serveWith funcs env r
      = serveFile env { r with URL := { r.URL with Path := '/' :: joinSlash segs } } imagesDir
          ('/' :: joinSlash segs) := by
  have hcan : cleanPath r.URL.Path = r.URL.Path := by rw [hp]; exact cleanPath_images segs hne h
  have hd : dispatch r = staticHandler := by
    rw [dispatch_canonical r hcan, hp, if_neg (images_path_ne _), if_pos (images_isPrefixOf _)]
  refine ⟨hd, ?_⟩
  rw [serveWith_canonical funcs env r hcan, hd, static_ServeHTTP funcs env r _ hp hraw]
  have hh := head_joinSlash segs hne h
  simp only [fileHandler.ServeHTTP, hh, if_false, Clean_rooted_join segs h]

/-- The registrations `main` leaves in `DefaultServeMux` do not depend on the outcome of
the bind. -/
theorem main_mux (listen : Str → Option Str) : (main listen).mux = mainMux := by
  unfold main
  split <;> rfl

theorem handler_eq (env : Env) (r : Request) :
    handler env r = Template.Execute env (template.ParseFiles env indexHtml).1 := rfl

theorem handler_status (env : Env) (r : Request) :
    (handler env r).status = some 200 ∨ (handler env r).status = none := by
  rw [handler_eq]
  cases (template.ParseFiles env indexHtml).1 with
  | none => exact Or.inr rfl
  | some t => exact Or.inl rfl

theorem handler_of_parsed (env : Env) (r : Request) (content : Str)
    (hfile : env.fs indexHtml = some (Node.file content)) (hparse : env.parses content = true) :
    handler env r = Outcome.response 200 (env.render content) := by
  simp [handler_eq, template.ParseFiles, hfile, hparse, Template.Execute]

theorem parseFiles_failed (env : Env)
    (h : ∀ content, env.fs indexHtml = some (Node.file content) → env.parses content = false) :
    (template.ParseFiles env indexHtml).1 = none ∧ (template.ParseFiles env indexHtml).2 ≠ none := by
  unfold template.ParseFiles
  split
  · rename_i content hfile
    simp [h content hfile]
  · simp

/-- A request in canonical form that is neither `/images` nor under `/images/` is served by
the function registered as `handler`. -/
theorem serveWith_other (funcs : Funcs) (env : Env) (r : Request)
    (hcan : cleanPath r.URL.Path = r.URL.Path) (hne : r.URL.Path ≠ "/images".toList)
    (hpre : imagesPattern.isPrefixOf r.URL.Path = false) :
    dispatch r = Handler.HandlerFunc Func.handler ∧
      serveWith funcs env r = funcs Func.handler env r := by
  have hd : dispatch r = Handler.HandlerFunc Func.handler := by
    rw [dispatch_canonical r hcan, if_neg hne]
    simp [hpre]
  exact ⟨hd, by rw [serveWith_canonical funcs env r hcan, hd]; rfl⟩

theorem serveFile_agree (e1 e2 : Env) (h : AgreeInside imagesDir e1 e2) (r : Request)
    (name : Str) : serveFile e1 r imagesDir name = serveFile e2 r imagesDir name := by
  obtain ⟨hfs, -, -, hdl, hcond, -⟩ := h
  have hopen : ∀ n, Dir.Open e1 imagesDir n = Dir.Open e2 imagesDir n :=
    fun n => hfs _ (fullName_images_inside n)
  have hsc : ∀ c, serveContent e1 r c = serveContent e2 r c := by
    intro c
    simp [serveContent, hcond]
  have hsd : ∀ n, serveDir e1 r n = serveDir e2 r n := by
    intro n
    simp [serveDir, hcond, hdl]
  simp only [serveFile, hopen, hsc, hsd]

theorem static_agree (funcs : Funcs) (e1 e2 : Env) (h : AgreeInside imagesDir e1 e2)
    (r : Request) : staticHandler.ServeHTTP funcs e1 r = staticHandler.ServeHTTP funcs e2 r := by
  simp only [staticHandler, Handler.ServeHTTP, fileHandler.ServeHTTP, serveFile_agree e1 e2 h]

/-- The handler selected for a request under `/images/` is the static handler or a
redirect. -/
theorem dispatch_under_images (r : Request) (hpre : imagesPattern.isPrefixOf r.URL.Path = true) :
    dispatch r = staticHandler ∨ ∃ u, dispatch r = Handler.RedirectHandler u := by
  unfold dispatch ServeMux.Handler
  simp only [handler_mainMux, hpre, if_true]
  repeat' split
  all_goals simp

theorem not_star_of_images (p : Str) (hpre : imagesPattern.isPrefixOf p = true) : p ≠ ['*'] := by
  intro e
  subst e
  revert hpre
  decide

/-- The handler selected for a request other than CONNECT whose path is not in canonical
form: a redirect to the cleaned path, with a slash added when that is `/images`. -/
theorem dispatch_noncanonical (r : Request) (hm : r.Method ≠ Method.CONNECT)
    (hcan : cleanPath r.URL.Path ≠ r.URL.Path) :
    dispatch r = Handler.RedirectHandler
      (if cleanPath r.URL.Path = "/images".toList then imagesPattern
       else cleanPath r.URL.Path) := by
  unfold dispatch ServeMux.Handler
  simp only [hm, if_false, ne_eq, hcan, not_false_eq_true, if_true, shouldRedirect_mainMux,
    decide_eq_true_eq]
  by_cases h : cleanPath r.URL.Path = "/images".toList
  · simp only [h, if_true]
    rfl
  · simp only [h, if_false]

/-! ## C1: requests to paths that are not registered -/

/-- Claim C1 fails on the code: the request `GET /foo`, whose path is neither `/` nor under
`/images/`, is dispatched to the root handler and answered with status 200 and the
rendered `index.html`, not with 404. -/
theorem C1_foo_is_served_by_root_handler :
    dispatch (mkRequest Method.GET "/foo".toList) = Handler.HandlerFunc Func.handler ∧
      serve exampleEnv (mkRequest Method.GET "/foo".toList)
        = Outcome.response 200 "<h1>Semantic Server</h1>".toList ∧
      (serve exampleEnv (mkRequest Method.GET "/foo".toList)).status ≠ some 404 := by
  decide

/-- Claim C1 as amended: for every request whose path is in canonical form and is neither
`/images` nor under `/images/` (for example `/foo`), the server built by `main` dispatches
the request to the root handler and answers exactly as `handler` does, and so never with
status 404. -/
theorem C1_unregistered_path_goes_to_root_handler (env : Env) (r : Request)
    (hcan : cleanPath r.URL.Path = r.URL.Path) (hne : r.URL.Path ≠ "/images".toList)
    (hpre : imagesPattern.isPrefixOf r.URL.Path = false) :
    dispatch r = Handler.HandlerFunc Func.handler ∧ serve env r = handler env r ∧
      (serve env r).status ≠ some 404 := by
  obtain ⟨hd, hs⟩ := serveWith_other webFuncs env r hcan hne hpre
  have hs2 : serve env r = handler env r := hs
  refine ⟨hd, hs2, ?_⟩
  rw [hs2]
  rcases handler_status env r with h | h <;> simp [h]

/-- Claim C1 as amended, at `GET /foo` in the example environment. -/
theorem C1_unregistered_path_goes_to_root_handler_witness :
    dispatch (mkRequest Method.GET "/foo".toList) = Handler.HandlerFunc Func.handler ∧
      serve exampleEnv (mkRequest Method.GET "/foo".toList)
        = handler exampleEnv (mkRequest Method.GET "/foo".toList) ∧
      (serve exampleEnv (mkRequest Method.GET "/foo".toList)).status ≠ some 404 :=
  C1_unregistered_path_goes_to_root_handler exampleEnv (mkRequest Method.GET "/foo".toList)
    (by decide) (by decide) (by decide)

/-! ## C2: the root handler without a usable template -/

/-- Claim C2 fails on the code: with no `index.html` in the working directory
`template.ParseFiles` returns a nil template with an error, `handler` calls `Execute` on
that nil template and panics; no status 500 is written. -/
theorem C2_missing_template_panics :
    (template.ParseFiles (exampleEnvOn (fun _ => none)) indexHtml).1 = none ∧
      handler (exampleEnvOn (fun _ => none)) (mkRequest Method.GET rootPattern)
        = Outcome.panicked ∧
      (handler (exampleEnvOn (fun _ => none)) (mkRequest Method.GET rootPattern)).status
        ≠ some 500 := by
  decide

/-- Claim C2 as amended: for every request dispatched to the root handler when `index.html`
is missing or fails to parse, `handler` does not branch on the parse error: it calls
`Execute` on the nil template returned alongside the error, and it writes no status 500 and
no message. -/
theorem C2_handler_executes_nil_template (env : Env) (r : Request)
    (h : ∀ content, env.fs indexHtml = some (Node.file content) → env.parses content = false) :
    (template.ParseFiles env indexHtml).1 = none ∧
      (template.ParseFiles env indexHtml).2 ≠ none ∧
      handler env r = Template.Execute env none ∧
      (handler env r).status ≠ some 500 ∧
      (handler env r).body = none := by
  obtain ⟨h1, h2⟩ := parseFiles_failed env h
  have h3 : handler env r = Template.Execute env none := by rw [handler_eq, h1]
  refine ⟨h1, h2, h3, ?_, ?_⟩ <;> rw [h3] <;>
    simp [Template.Execute, Outcome.status, Outcome.body]

/-- Claim C2 as amended, at a working directory without `index.html`. -/
theorem C2_handler_executes_nil_template_witness :
    (template.ParseFiles (exampleEnvOn (fun _ => none)) indexHtml).1 = none ∧
      (template.ParseFiles (exampleEnvOn (fun _ => none)) indexHtml).2 ≠ none ∧
      handler (exampleEnvOn (fun _ => none)) (mkRequest Method.GET rootPattern)
        = Template.Execute (exampleEnvOn (fun _ => none)) none ∧
      (handler (exampleEnvOn (fun _ => none)) (mkRequest Method.GET rootPattern)).status
        ≠ some 500 ∧
      (handler (exampleEnvOn (fun _ => none)) (mkRequest Method.GET rootPattern)).body
        = none :=
  C2_handler_executes_nil_template (exampleEnvOn (fun _ => none))
    (mkRequest Method.GET rootPattern) (by intro content h; simp [exampleEnvOn] at h)

/-! ## C3: the root handler with a well-formed template -/

/-- Claim C3 fails on the code in its parenthesis: the file `<!--x-->hi` holds no action and
parses, yet the body `handler` writes is `hi`, not the file's content, because the
rendering of `html/template` elides HTML comments. -/
theorem C3_action_free_template_is_rewritten :
    hasAction "<!--x-->hi".toList = false ∧
      handler (exampleEnvOn (fun p =>
          if p = indexHtml then some (Node.file "<!--x-->hi".toList) else none))
          (mkRequest Method.GET rootPattern)
        = Outcome.response 200 "hi".toList ∧
      (handler (exampleEnvOn (fun p =>
          if p = indexHtml then some (Node.file "<!--x-->hi".toList) else none))
          (mkRequest Method.GET rootPattern)).body ≠ some "<!--x-->hi".toList := by
  decide

/-- Claim C3 as amended: for every request to `/`, when `index.html` exists in the working
directory and parses as a well-formed template, `handler` produces status 200 and a body
equal to that template rendered with a nil data context; the body is the file's content
unchanged where that rendering leaves the text as it is. -/
theorem C3_handler_renders_template (env : Env) (r : Request) (content : Str)
    (hfile : env.fs indexHtml = some (Node.file content)) (hparse : env.parses content = true) :
    handler env r = Outcome.response 200 (env.render content) ∧
      (r.URL.Path = rootPattern → serve env r = Outcome.response 200 (env.render content)) ∧
      (env.render content = content → handler env r = Outcome.response 200 content) := by
  have hh := handler_of_parsed env r content hfile hparse
  refine ⟨hh, ?_, ?_⟩
  · intro hp
    have hs := (serveWith_other webFuncs env r (by rw [hp]; decide) (by rw [hp]; decide)
      (by rw [hp]; decide)).2
    exact hs.trans hh
  · intro hr
    rw [hh, hr]

/-- Claim C3 as amended, at `GET /` in the example environment. -/
theorem C3_handler_renders_template_witness :
    handler exampleEnv (mkRequest Method.GET rootPattern)
        = Outcome.response 200 (exampleEnv.render "<h1>Semantic Server</h1>".toList) ∧
      ((mkRequest Method.GET rootPattern).URL.Path = rootPattern →
        serve exampleEnv (mkRequest Method.GET rootPattern)
          = Outcome.response 200 (exampleEnv.render "<h1>Semantic Server</h1>".toList)) ∧
      (exampleEnv.render "<h1>Semantic Server</h1>".toList = "<h1>Semantic Server</h1>".toList →
        handler exampleEnv (mkRequest Method.GET rootPattern)
          = Outcome.response 200 "<h1>Semantic Server</h1>".toList) :=
  C3_handler_renders_template exampleEnv (mkRequest Method.GET rootPattern)
    "<h1>Semantic Server</h1>".toList (by decide) (by decide)

/-! ## C8: a bind failure at startup -/

/-- Claim C8 fails on the code: when binding `:7899` fails, `main` returns with the error
dropped; the process exits with status 0 and has written nothing but the banner. -/
theorem C8_bind_failure_exits_zero :
    (main (fun _ => some "bind: address already in use".toList)).exit = some 0 ∧
      (main (fun _ => some "bind: address already in use".toList)).stderr = [] ∧
      (main (fun _ => some "bind: address already in use".toList)).stdout
        = "Running on port 7899".toList := by
  decide

/-- Claim C8 as amended: when binding the listening port 7899 fails at startup, `main` drops
the error `ListenAndServe` returns and returns normally: it emits no diagnostic (standard
error stays empty, standard output holds only the banner) and the process exits with
status 0. -/
theorem C8_main_drops_bind_error (listen : Str → Option Str) (err : Str)
    (h : listen ":7899".toList = some err) :
    main listen = { stdout := "Running on port 7899".toList, stderr := [], mux := mainMux,
                    exit := some 0 } := by
  unfold main ListenAndServe
  simp only [h]

/-- Claim C8 as amended, at a port that is already in use. -/
theorem C8_main_drops_bind_error_witness :
    main (fun _ => some "bind: address already in use".toList)
      = { stdout := "Running on port 7899".toList, stderr := [], mux := mainMux,
          exit := some 0 } :=
  C8_main_drops_bind_error (fun _ => some "bind: address already in use".toList)
    "bind: address already in use".toList rfl

/-! ## C9: the root handler and the request -/

/-- Claim C9: the root handler consumes nothing from the request.  For any two requests and
any two environments that hold the same `index.html` and the same template engine,
`handler` produces the same outcome, hence the same status and the same body. -/
theorem C9_handler_ignores_request (e1 e2 : Env) (r1 r2 : Request)
    (hfile : e1.fs indexHtml = e2.fs indexHtml) (hparse : e1.parses = e2.parses)
    (hrender : e1.render = e2.render) :
    handler e1 r1 = handler e2 r2 ∧ (handler e1 r1).status = (handler e2 r2).status ∧
      (handler e1 r1).body = (handler e2 r2).body := by
  have h : handler e1 r1 = handler e2 r2 := by
    rw [handler_eq, handler_eq]
    simp only [template.ParseFiles, hfile, hparse]
    cases e2.fs indexHtml with
    | none => rfl
    | some n =>
      cases n with
      | file c =>
        by_cases hp : e2.parses c = true
        · simp [hp, Template.Execute, hrender]
        · simp [hp, Template.Execute]
      | _ => rfl
  exact ⟨h, by rw [h], by rw [h]⟩

/-- Claim C9, at a `GET /` without headers and a `POST /foo/bar` with a query, a header and
a body, in the example environment. -/
theorem C9_handler_ignores_request_witness :
    handler exampleEnv (mkRequest Method.GET rootPattern)
        = handler exampleEnv
            { Method := Method.POST, URL := { Path := "/foo/bar".toList, RawQuery := "a=1".toList },
              Host := "example.org".toList,
              Header := [("Range".toList, "bytes=0-1".toList)], Body := "x".toList } ∧
      (handler exampleEnv (mkRequest Method.GET rootPattern)).status
        = (handler exampleEnv
            { Method := Method.POST, URL := { Path := "/foo/bar".toList, RawQuery := "a=1".toList },
              Host := "example.org".toList,
              Header := [("Range".toList, "bytes=0-1".toList)], Body := "x".toList }).status ∧
      (handler exampleEnv (mkRequest Method.GET rootPattern)).body
        = (handler exampleEnv
            { Method := Method.POST, URL := { Path := "/foo/bar".toList, RawQuery := "a=1".toList },
              Host := "example.org".toList,
              Header := [("Range".toList, "bytes=0-1".toList)], Body := "x".toList }).body :=
  C9_handler_ignores_request exampleEnv exampleEnv _ _ rfl rfl rfl

theorem joinSlash_images (segs : List Str) (hne : segs ≠ []) :
    joinSlash (imagesDir :: segs) = imagesDir ++ '/' :: joinSlash segs := by
  cases segs with
  | nil => exact absurd rfl hne
  | cons s t => rfl

/-! ## The last element of a path -/

theorem last_element_unique (a b x y : Str) (ha : '/' ∉ a) (hb : '/' ∉ b)
    (h : a ++ '/' :: x = b ++ '/' :: y) : a = b := by
  induction a generalizing b with
  | nil =>
    cases b with
    | nil => rfl
    | cons d b2 =>
      simp only [List.nil_append, List.cons_append, List.cons.injEq] at h
      exact absurd h.1.symm (fun e => hb (by simp [e]))
  | cons c a2 ih =>
    cases b with
    | nil =>
      simp only [List.nil_append, List.cons_append, List.cons.injEq] at h
      exact absurd h.1 (fun e => ha (by simp [e]))
    | cons d b2 =>
      simp only [List.cons_append, List.cons.injEq] at h
      have := ih b2 (fun m => ha (by simp [m])) (fun m => hb (by simp [m])) h.2
      rw [h.1, this]

theorem rooted_join_last (segs : List Str) (hne : segs ≠ []) :
    ∃ pre, '/' :: joinSlash segs = pre ++ '/' :: segs.getLast hne := by
  induction segs with
  | nil => exact absurd rfl hne
  | cons s t ih =>
    cases t with
    | nil => exact ⟨[], rfl⟩
    | cons u v =>
      obtain ⟨pre, hpre⟩ := ih (by simp)
      refine ⟨'/' :: s ++ pre, ?_⟩
      rw [joinSlash_cons_cons, List.getLast_cons (by simp)]
      simp only [List.cons_append, List.append_assoc]
      rw [← hpre]

/-- A rooted path of ordinary elements ends in `/index.html` only when its last element is
`index.html`. -/
theorem not_index_suffix (segs : List Str) (hne : segs ≠ []) (h : ∀ s ∈ segs, Normal s)
    (hlast : segs.getLast? ≠ some "index.html".toList) :
    indexPage.isSuffixOf ('/' :: joinSlash segs) = false := by
  rw [Bool.eq_false_iff]
  intro hs
  rw [List.isSuffixOf_iff_suffix] at hs
  obtain ⟨t, ht⟩ := hs
  obtain ⟨pre, hpre⟩ := rooted_join_last segs hne
  have hidx : indexPage = '/' :: "index.html".toList := rfl
  rw [hidx, hpre] at ht
  have hl : '/' ∉ segs.getLast hne := (h _ (List.getLast_mem hne)).2.2.2
  have hrev := congrArg List.reverse ht
  simp only [List.reverse_append, List.reverse_cons, List.append_assoc, List.singleton_append]
    at hrev
  have := last_element_unique _ _ _ _ (by decide) (by simpa using hl) hrev
  have h2 : segs.getLast hne = "index.html".toList := by
    have := congrArg List.reverse this
    simpa using this.symm
  exact hlast (by rw [List.getLast?_eq_getLast _ hne, h2])

/-- The outcome of a request for `/images/` followed by ordinary elements, the last of
which is not `index.html`, read off what the name `images/<elements>` opens. -/
theorem serveWith_images_node (funcs : Funcs) (env : Env) (r : Request) (segs : List Str)
    (hne : segs ≠ []) (h : ∀ s ∈ segs, Normal s)
    (hlast : segs.getLast? ≠ some "index.html".toList)
    (hp : r.URL.Path = imagesPattern ++ joinSlash segs) (hraw : r.URL.RawPath = []) :
    serveWith funcs env r =
      match env.fs (imagesDir ++ '/' :: joinSlash segs) with
      | none => NotFound
      | some Node.denied => Forbidden
      | some Node.faulty => InternalServerError "500 Internal Server Error".toList
      | some (Node.file content) =>
        serveContent env { r with URL := { r.URL with Path := '/' :: joinSlash segs } } content
      | some Node.dir => localRedirect (path.Base ('/' :: joinSlash segs) ++ ['/']) := by
  rw [(serveWith_images funcs env r segs hne h hp hraw).2]
  have hidx := not_index_suffix segs hne h hlast
  have hfull : Dir.fullName imagesDir ('/' :: joinSlash segs)
      = imagesDir ++ '/' :: joinSlash segs := by
    have := fullName_images_normal segs h
    rw [Clean_rooted_join segs h] at this
    rw [this, joinSlash_images segs hne]
  have hl := getLast_rooted_join segs hne h
  simp only [serveFile, hidx, Dir.Open, hfull, Bool.false_eq_true, if_false]
  cases env.fs (imagesDir ++ '/' :: joinSlash segs) with
  | none => rfl
  | some n =>
    cases n with
    | file c => simp only [hl, if_false]
    | dir => simp only [ne_eq, hl, not_false_eq_true, if_true]
    | denied => rfl
    | faulty => rfl

theorem inside_images_head (p : Str) (h : Inside imagesDir p) : p.head? = some 'i' := by
  obtain ⟨segs, -, rfl⟩ := h
  cases segs with
  | nil => rfl
  | cons s t => rfl

theorem example_envs_agree :
    AgreeInside imagesDir (exampleEnvOn exampleFs) (exampleEnvOn exampleFsChanged) := by
  refine ⟨?_, rfl, rfl, rfl, rfl, rfl⟩
  intro p hp
  have hh := inside_images_head p hp
  have hne : p ≠ "etc/passwd".toList := by
    intro e
    rw [e] at hh
    revert hh
    decide
  show exampleFs p = exampleFsChanged p
  unfold exampleFsChanged
  rw [if_neg hne]

/-- The server answers a request under `/images/` alike in two environments that agree
inside `images`. -/
theorem serve_agree (e1 e2 : Env) (h : AgreeInside imagesDir e1 e2) (r : Request)
    (hpre : imagesPattern.isPrefixOf r.URL.Path = true) : serve e1 r = serve e2 r := by
  have hstar := not_star_of_images _ hpre
  have hd : mainMux.Handler r = dispatch r := rfl
  have hserve : ∀ env, serve env r = (dispatch r).ServeHTTP webFuncs env r := by
    intro env
    simp only [serve, serveWith, serverHandler, ServeMux.ServeHTTP, hstar, false_and, if_false,
      hd]
  rw [hserve, hserve]
  rcases dispatch_under_images r hpre with hs | ⟨u, hs⟩
  · rw [hs]
    exact static_agree webFuncs e1 e2 h r
  · rw [hs]
    simp only [Handler.ServeHTTP, h.2.2.2.2.2]

theorem serve_redirect (env : Env) (r : Request) (u : Str) (hstar : r.URL.Path ≠ ['*'])
    (hd : dispatch r = Handler.RedirectHandler u) :
    serve env r = Outcome.redirect env.redirectCode u := by
  have hm : mainMux.Handler r = dispatch r := rfl
  simp only [serve, serveWith, serverHandler, ServeMux.ServeHTTP, hstar, false_and, if_false,
    hm, hd, Handler.ServeHTTP]

/-! ## C10: dispatch over the two patterns -/

/-- Claim C10 fails on the code: the path `/images` does not begin with `/images/`, yet it is
neither dispatched to the static file handler nor to the root handler and does not receive
the rendered `index.html`; the mux answers it with a redirect to `/images/`, whatever the
status code of its redirects.  The path `/foo//bar`, which is not in canonical form, is
redirected to `/foo/bar` in the same way. -/
theorem C10_images_without_slash_is_redirected :
    imagesPattern.isPrefixOf "/images".toList = false ∧
      dispatch (mkRequest Method.GET "/images".toList)
        = Handler.RedirectHandler "/images/".toList ∧
      dispatch (mkRequest Method.GET "/images".toList) ≠ Handler.HandlerFunc Func.handler ∧
      serve exampleEnv (mkRequest Method.GET "/images".toList)
        ≠ handler exampleEnv (mkRequest Method.GET "/images".toList) ∧
      (serve exampleEnv (mkRequest Method.GET "/images".toList)).body = none ∧
      (serve exampleEnvLegacy (mkRequest Method.GET "/images".toList)).body = none ∧
      dispatch (mkRequest Method.GET "/foo//bar".toList)
        = Handler.RedirectHandler "/foo/bar".toList := by
  decide

/-- Claim C10 as amended: dispatch over the two patterns `main` registers is decided by
longest matching prefix.  For every request sent without percent-escapes whose path p is in
canonical form, p is dispatched to the static file handler if and only if p begins with
`/images/`; `/images` itself is answered by a redirect to `/images/`; every other such
path is dispatched to the root handler, because the pattern `/` matches every rooted path,
and so receives what `handler` writes, the rendered `index.html`. -/
theorem C10_dispatch_by_longest_pattern (r : Request) (_hraw : r.URL.RawPath = [])
    (hcan : cleanPath r.URL.Path = r.URL.Path) :
    (dispatch r = staticHandler ↔ imagesPattern.isPrefixOf r.URL.Path = true) ∧
      (r.URL.Path = "/images".toList →
        dispatch r = Handler.RedirectHandler imagesPattern ∧
          ∀ env, serve env r = Outcome.redirect env.redirectCode imagesPattern) ∧
      (imagesPattern.isPrefixOf r.URL.Path = false → r.URL.Path ≠ "/images".toList →
        dispatch r = Handler.HandlerFunc Func.handler ∧ ∀ env, serve env r = handler env r) := by
  have hd := dispatch_canonical r hcan
  refine ⟨?_, ?_, ?_⟩
  · by_cases hi : r.URL.Path = "/images".toList
    · rw [hd, if_pos hi, hi]
      decide
    · rw [hd, if_neg hi]
      by_cases hpre : imagesPattern.isPrefixOf r.URL.Path = true
      · simp [hpre]
      · simp only [hpre, if_false, iff_false]
        decide
  · intro hi
    have hd2 : dispatch r = Handler.RedirectHandler imagesPattern := by rw [hd, if_pos hi]
    exact ⟨hd2, fun env => serve_redirect env r _ (not_star_of_canonical _ hcan) hd2⟩
  · intro hpre hi
    refine ⟨?_, fun env => (serveWith_other webFuncs env r hcan hi hpre).2⟩
    rw [hd, if_neg hi]
    simp [hpre]

/-- Claim C10 as amended, at the path `/foo/bar`. -/
theorem C10_dispatch_by_longest_pattern_witness :
    (dispatch (mkRequest Method.GET "/foo/bar".toList) = staticHandler ↔
        imagesPattern.isPrefixOf (mkRequest Method.GET "/foo/bar".toList).URL.Path = true) ∧
      ((mkRequest Method.GET "/foo/bar".toList).URL.Path = "/images".toList →
        dispatch (mkRequest Method.GET "/foo/bar".toList)
            = Handler.RedirectHandler imagesPattern ∧
          ∀ env, serve env (mkRequest Method.GET "/foo/bar".toList)
            = Outcome.redirect env.redirectCode imagesPattern) ∧
      (imagesPattern.isPrefixOf (mkRequest Method.GET "/foo/bar".toList).URL.Path = false →
        (mkRequest Method.GET "/foo/bar".toList).URL.Path ≠ "/images".toList →
        dispatch (mkRequest Method.GET "/foo/bar".toList) = Handler.HandlerFunc Func.handler ∧
          ∀ env, serve env (mkRequest Method.GET "/foo/bar".toList)
            = handler env (mkRequest Method.GET "/foo/bar".toList)) :=
  C10_dispatch_by_longest_pattern (mkRequest Method.GET "/foo/bar".toList) (by decide)
    (by decide)

/-! ## C7: `containerHandler` -/

/-- Claim C7 fails on the code in its middle part: not every request is dispatched to one of
the two registered handlers.  `GET /images` and `GET /a//b` reach neither `handler` nor the
static file handler; the mux answers them with a redirect handler of its own. -/
theorem C7_some_requests_reach_neither_handler :
    dispatch (mkRequest Method.GET "/images".toList) ≠ Handler.HandlerFunc Func.handler ∧
      dispatch (mkRequest Method.GET "/images".toList) ≠ staticHandler ∧
      dispatch (mkRequest Method.GET "/a//b".toList)
        = Handler.RedirectHandler "/a/b".toList ∧
      dispatch (mkRequest Method.GET "/a//b".toList) ≠ Handler.HandlerFunc Func.handler ∧
      dispatch (mkRequest Method.GET "/a//b".toList) ≠ staticHandler := by
  decide

/-- Claim C7 as amended: `containerHandler` is unreachable.  `main` registers only `handler`
(for `/`) and the static file handler (for `/images/`), so for every request the server
dispatches to one of those two or to a handler the mux generates itself (not found, or a
redirect), and never to `containerHandler`; replacing or removing `containerHandler`
leaves the server's response to every request unchanged. -/
theorem C7_containerHandler_unreachable (r : Request) :
    (∀ e ∈ mainMux, e.h = Handler.HandlerFunc Func.handler ∨ e.h = staticHandler) ∧
      dispatch r ≠ Handler.HandlerFunc Func.containerHandler ∧
      (dispatch r = Handler.HandlerFunc Func.handler ∨ dispatch r = staticHandler ∨
        dispatch r = Handler.NotFoundHandler ∨
        ∃ u, dispatch r = Handler.RedirectHandler u) ∧
      ∀ (ch : Env → Request → Outcome) (env : Env),
        serveWith (withContainer ch) env r = serve env r := by
  have hr := dispatch_range r
  refine ⟨by decide, ?_, hr, ?_⟩
  · rcases hr with h | h | h | ⟨u, h⟩ <;> rw [h] <;> simp [staticHandler]
  · intro ch env
    have hd : mainMux.Handler r = dispatch r := rfl
    simp only [serve, serveWith, serverHandler, ServeMux.ServeHTTP, hd]
    rcases hr with h | h | h | ⟨u, h⟩ <;> rw [h] <;>
      simp [Handler.ServeHTTP, staticHandler, withContainer, webFuncs]

/-! ## C4: path traversal under `/images/` -/

/-- Claim C4 fails on the code.  The traversal request `GET /images/../../etc/passwd` is
answered by the mux with a redirect to `/etc/passwd`: whatever the status code of the mux's
redirects (307 or 301), the response is none of 400, 403 and 404, and it is not the content
of a file.  And with a symbolic link `images/link` to `etc/passwd`, `GET /images/link` is
answered with the content of `etc/passwd`, a file outside the root. -/
theorem C4_traversal_request_is_redirected :
    dispatch (mkRequest Method.GET "/images/../../etc/passwd".toList)
        = Handler.RedirectHandler "/etc/passwd".toList ∧
      (serve exampleEnv (mkRequest Method.GET "/images/../../etc/passwd".toList)).status
        ∉ [some 400, some 403, some 404] ∧
      (serve exampleEnv (mkRequest Method.GET "/images/../../etc/passwd".toList)).body
        = none ∧
      (serve exampleEnvLegacy (mkRequest Method.GET "/images/../../etc/passwd".toList)).status
        ∉ [some 400, some 403, some 404] ∧
      (serve exampleEnvLegacy (mkRequest Method.GET "/images/../../etc/passwd".toList)).body
        = none ∧
      exampleFsLinked "etc/passwd".toList = some (Node.file "root:x:0:0".toList) ∧
      serve (exampleEnvOn exampleFsLinked) (mkRequest Method.GET "/images/link".toList)
        = Outcome.response 200 "root:x:0:0".toList := by
  decide

/-- Claim C4 as amended: for every request to `/images/<name>`, with or without
path-traversal sequences, the static handler opens no name outside the `images` root.
Every file name it opens is `images` itself or `images` followed by ordinary path elements.
Its response, and for a request sent without percent-escapes the response of the server,
is the same in any two environments that differ only in what the names not lying lexically
inside `images` open (a symbolic link under `images` is followed, so what it points to
counts as what its name opens).  And for a request other than CONNECT, sent without
percent-escapes, whose path is not in canonical form, as with `..` elements, the handler
selected is the redirect handler of the mux, not the static handler: the response is a
redirect to the cleaned path, or to `/images/` when the cleaned path is `/images`,
whatever the file system holds. -/
theorem C4_static_handler_stays_inside_images (r : Request)
    (hpre : imagesPattern.isPrefixOf r.URL.Path = true) :
    (∀ name, Inside imagesDir (Dir.fullName imagesDir name)) ∧
      (∀ funcs e1 e2, AgreeInside imagesDir e1 e2 →
        staticHandler.ServeHTTP funcs e1 r = staticHandler.ServeHTTP funcs e2 r) ∧
      (r.URL.RawPath = [] → ∀ e1 e2, AgreeInside imagesDir e1 e2 → serve e1 r = serve e2 r) ∧
      (r.URL.RawPath = [] → r.Method ≠ Method.CONNECT → cleanPath r.URL.Path ≠ r.URL.Path →
        dispatch r = Handler.RedirectHandler
            (if cleanPath r.URL.Path = "/images".toList then imagesPattern
             else cleanPath r.URL.Path) ∧
          ∀ env, serve env r = Outcome.redirect env.redirectCode
            (if cleanPath r.URL.Path = "/images".toList then imagesPattern
             else cleanPath r.URL.Path)) := by
  refine ⟨fullName_images_inside, ?_, ?_, ?_⟩
  · intro funcs e1 e2 hagree
    exact static_agree funcs e1 e2 hagree r
  · intro _ e1 e2 hagree
    exact serve_agree e1 e2 hagree r hpre
  · intro _ hm hcan
    have hd := dispatch_noncanonical r hm hcan
    exact ⟨hd, fun env => serve_redirect env r _ (not_star_of_images _ hpre) hd⟩

/-- Claim C4 as amended, at the traversal path `/images/../../etc/passwd`.  Sent as CONNECT
it reaches the static handler: the name opened lies inside `images` and the response does
not change when `etc/passwd` does; the same holds for the static handler when the dots are
sent percent-encoded.  Sent as GET without escapes it is redirected to `/etc/passwd`. -/
theorem C4_static_handler_stays_inside_images_witness :
    Inside imagesDir (Dir.fullName imagesDir "../../etc/passwd".toList) ∧
      staticHandler.ServeHTTP webFuncs (exampleEnvOn exampleFs)
          { mkRequest Method.GET "/images/../../etc/passwd".toList with
            URL := { Path := "/images/../../etc/passwd".toList,
                     RawPath := "/images/%2e%2e/%2e%2e/etc/passwd".toList, RawQuery := [] } }
        = staticHandler.ServeHTTP webFuncs (exampleEnvOn exampleFsChanged)
          { mkRequest Method.GET "/images/../../etc/passwd".toList with
            URL := { Path := "/images/../../etc/passwd".toList,
                     RawPath := "/images/%2e%2e/%2e%2e/etc/passwd".toList, RawQuery := [] } } ∧
      serve (exampleEnvOn exampleFs) (mkRequest Method.CONNECT "/images/../../etc/passwd".toList)
        = serve (exampleEnvOn exampleFsChanged)
            (mkRequest Method.CONNECT "/images/../../etc/passwd".toList) ∧
      dispatch (mkRequest Method.GET "/images/../../etc/passwd".toList)
        = Handler.RedirectHandler
            (if cleanPath (mkRequest Method.GET "/images/../../etc/passwd".toList).URL.Path
                = "/images".toList then imagesPattern
             else cleanPath (mkRequest Method.GET "/images/../../etc/passwd".toList).URL.Path) :=
  ⟨(C4_static_handler_stays_inside_images
      (mkRequest Method.CONNECT "/images/../../etc/passwd".toList) (by decide)).1 _,
    (C4_static_handler_stays_inside_images
      { mkRequest Method.GET "/images/../../etc/passwd".toList with
        URL := { Path := "/images/../../etc/passwd".toList,
                 RawPath := "/images/%2e%2e/%2e%2e/etc/passwd".toList, RawQuery := [] } }
      (by decide)).2.1 _ _ _ example_envs_agree,
    (C4_static_handler_stays_inside_images
      (mkRequest Method.CONNECT "/images/../../etc/passwd".toList) (by decide)).2.2.1
      (by decide) _ _ example_envs_agree,
    ((C4_static_handler_stays_inside_images
      (mkRequest Method.GET "/images/../../etc/passwd".toList) (by decide)).2.2.2
      (by decide) (by decide) (by decide)).1⟩

/-! ## C5: the file a request under `/images/` names -/

/-- Claim C5 fails on the code: the request path `/images/a/../logo.png` has the form
`/images/<path>`, yet the server does not dispatch it to the static file handler and reads
no file; the mux answers it with a redirect to `/images/logo.png`.  And for
`/images/index.html` the static file handler does not read `images/index.html`: it answers
with a 301 redirect to `./`, also in a working directory that holds no file at all. -/
theorem C5_noncanonical_image_path_is_redirected :
    imagesPattern.isPrefixOf "/images/a/../logo.png".toList = true ∧
      dispatch (mkRequest Method.GET "/images/a/../logo.png".toList)
        = Handler.RedirectHandler "/images/logo.png".toList ∧
      dispatch (mkRequest Method.GET "/images/a/../logo.png".toList) ≠ staticHandler ∧
      (serve exampleEnv (mkRequest Method.GET "/images/a/../logo.png".toList)).body = none ∧
      dispatch (mkRequest Method.GET "/images/index.html".toList) = staticHandler ∧
      serve (exampleEnvOn (fun _ => none)) (mkRequest Method.GET "/images/index.html".toList)
        = Outcome.redirect 301 "./".toList := by
  decide

/-- Claim C5 as amended: for every request sent without percent-escapes whose path has the
form `/images/<path>`, where `<path>` consists of one or more ordinary elements (none
empty, `.` or `..`, separated by single slashes) the last of which is not `index.html`,
the server dispatches to the static file handler, which strips exactly the leading
`/images/` and resolves the remainder against the `images` directory: the name it opens is
`images/<path>`, and what that name opens decides the response. -/
theorem C5_images_path_resolves_under_images (env : Env) (r : Request) (segs : List Str)
    (hne : segs ≠ []) (hnorm : ∀ s ∈ segs, Normal s)
    (hlast : segs.getLast? ≠ some "index.html".toList)
    (hp : r.URL.Path = imagesPattern ++ joinSlash segs) (hraw : r.URL.RawPath = []) :
    dispatch r = staticHandler ∧
      staticHandler.ServeHTTP webFuncs env r
        = fileHandler.ServeHTTP env imagesDir
            { r with URL := { r.URL with Path := joinSlash segs } } ∧
      Dir.fullName imagesDir (path.Clean ('/' :: joinSlash segs))
        = imagesDir ++ '/' :: joinSlash segs ∧
      serve env r =
        match env.fs (imagesDir ++ '/' :: joinSlash segs) with
        | none => NotFound
        | some Node.denied => Forbidden
        | some Node.faulty => InternalServerError "500 Internal Server Error".toList
        | some (Node.file content) =>
          serveContent env { r with URL := { r.URL with Path := '/' :: joinSlash segs } } content
        | some Node.dir => localRedirect (path.Base ('/' :: joinSlash segs) ++ ['/']) := by
  refine ⟨(serveWith_images webFuncs env r segs hne hnorm hp hraw).1,
    static_ServeHTTP webFuncs env r _ hp hraw, ?_,
    serveWith_images_node webFuncs env r segs hne hnorm hlast hp hraw⟩
  rw [fullName_images_normal segs hnorm, joinSlash_images segs hne]

/-- Claim C5 as amended, at `GET /images/logo.png`: the name opened is `images/logo.png`
and the response is the content of that file. -/
theorem C5_images_path_resolves_under_images_witness :
    dispatch (mkRequest Method.GET "/images/logo.png".toList) = staticHandler ∧
      Dir.fullName imagesDir (path.Clean "/logo.png".toList) = "images/logo.png".toList ∧
      serve exampleEnv (mkRequest Method.GET "/images/logo.png".toList)
        = Outcome.response 200 "PNGDATA123".toList :=
  have h := C5_images_path_resolves_under_images exampleEnv
    (mkRequest Method.GET "/images/logo.png".toList) ["logo.png".toList]
    (by decide) (by decide) (by decide) (by decide) (by decide)
  ⟨h.1, h.2.2.1, h.2.2.2.trans (by decide)⟩

/-! ## C6: serving an image -/

/-- Claim C6 fails on the code: `images/index.html` is an existing regular file, yet
`GET /images/index.html` is answered with a 301 redirect to `./`, not with status 200 and
the file's content.  Likewise `GET /images/./logo.png` names the existing file
`images/logo.png` and is not served by the static file handler but redirected by the mux,
and for `HEAD /images/logo.png` the handler writes status 200 and no body. -/
theorem C6_existing_index_file_is_redirected :
    exampleEnv.fs "images/index.html".toList = some (Node.file "<p>gallery</p>".toList) ∧
      serve exampleEnv (mkRequest Method.GET "/images/index.html".toList)
        = Outcome.redirect 301 "./".toList ∧
      (serve exampleEnv (mkRequest Method.GET "/images/index.html".toList)).status
        ≠ some 200 ∧
      dispatch (mkRequest Method.GET "/images/./logo.png".toList)
        = Handler.RedirectHandler "/images/logo.png".toList ∧
      (serve exampleEnv (mkRequest Method.GET "/images/./logo.png".toList)).body = none ∧
      serve exampleEnv (mkRequest Method.HEAD "/images/logo.png".toList)
        = Outcome.response 200 [] := by
  decide

/-- Claim C6 as amended: for every request sent without percent-escapes, without
precondition and `Range` headers and with a method other than HEAD, to `/images/<name>`,
where `<name>` consists of one or more ordinary elements the last of which is not
`index.html`: when `images/<name>` opens as a regular file the response status is 200 and
the body equals the file's content byte for byte; when `images/<name>` does not exist the
status is 404. -/
theorem C6_existing_image_is_served (env : Env) (r : Request) (segs : List Str)
    (hne : segs ≠ []) (hnorm : ∀ s ∈ segs, Normal s)
    (hlast : segs.getLast? ≠ some "index.html".toList)
    (hp : r.URL.Path = imagesPattern ++ joinSlash segs) (hraw : r.URL.RawPath = [])
    (hcond : hasConditional r = false) (hm : r.Method ≠ Method.HEAD) :
    (∀ content, env.fs (imagesDir ++ '/' :: joinSlash segs) = some (Node.file content) →
        serve env r = Outcome.response 200 content) ∧
      (env.fs (imagesDir ++ '/' :: joinSlash segs) = none →
        serve env r = NotFound ∧ (serve env r).status = some 404) := by
  have hs : serve env r = _ :=
    serveWith_images_node webFuncs env r segs hne hnorm hlast hp hraw
  have hcond2 : hasConditional { r with URL := { r.URL with Path := '/' :: joinSlash segs } }
      = false := hcond
  constructor
  · intro content hfile
    rw [hs, hfile]
    simp only [serveContent, hcond2, Bool.false_eq_true, if_false, hm]
  · intro hnone
    have : serve env r = NotFound := by rw [hs, hnone]
    exact ⟨this, by rw [this]; rfl⟩

/-- Claim C6 as amended, at the scenario of the specification: `images/logo.png` with
content `PNGDATA123` gives status 200 and body `PNGDATA123`, and the missing
`images/nope.png` gives 404. -/
theorem C6_existing_image_is_served_witness :
    serve exampleEnv (mkRequest Method.GET "/images/logo.png".toList)
        = Outcome.response 200 "PNGDATA123".toList ∧
      (serve exampleEnv (mkRequest Method.GET "/images/nope.png".toList)).status = some 404 :=
  ⟨(C6_existing_image_is_served exampleEnv (mkRequest Method.GET "/images/logo.png".toList)
      ["logo.png".toList] (by decide) (by decide) (by decide) (by decide) (by decide)
      (by decide) (by decide)).1 _ (by decide),
    ((C6_existing_image_is_served exampleEnv (mkRequest Method.GET "/images/nope.png".toList)
      ["nope.png".toList] (by decide) (by decide) (by decide) (by decide) (by decide)
      (by decide) (by decide)).2 (by decide)).2⟩

end SemanticServer
